import Mathlib

/-!
# Frequency controller of the three-phase inverter (`src/src/freq_control.c`)

Shallow embedding of the SPWM frequency-control module.

* C `float` values are modelled as exact numbers of an arbitrary ordered field `α` with a
  floor function (`ℚ` for evaluation, `ℝ` for the statements about the sine function).
* `uint8_t` / `uint16_t` values are natural numbers; the conversion of a `float` to
  `uint16_t` truncates toward zero and is reduced modulo `2^16`.
* The module's file-scope variables form the record `State`; every public function takes the
  state and returns the new state together with the list of PWM driver calls it issued.
* The C library function `sinf` is a parameter of the functions that use it.
* Statements about integer results of float computations (table entries, boosted duties,
  table indices) are made up to the single-precision evaluation error, or for a `sinf` that is
  only assumed accurate; a second copy of the functions, on floats that may be NaN, shows
  what the range check of `FreqControl_SetFrequency` lets through.
-/

namespace FreqControl

/-! ## Constants (`freq_control.h`, `freq_control.c` private defines) -/

/-- The constant `PI` of the source, `3.14159265359f`, taken as the exact decimal. -/
def PI (α : Type) [LinearOrderedField α] : α := 3.14159265359

/-- The constant `TWO_PI` of the source, `(2.0f * PI)`. -/
def TWO_PI (α : Type) [LinearOrderedField α] : α := 2 * PI α

/-- Minimum frequency in Hz, `0.1f`. -/
def FREQ_MIN (α : Type) [LinearOrderedField α] : α := 0.1

/-- Maximum frequency in Hz, `50.0f`. -/
def FREQ_MAX (α : Type) [LinearOrderedField α] : α := 50.0

def PWM_MAX_VALUE : Nat := 1000

/-- The 10 kHz PWM carrier frequency. -/
def PWM_CARRIER_FREQ : Nat := 10000

/-- One table value per degree. -/
def SINE_TABLE_SIZE : Nat := 360

def PHASE_120_DEGREES : Nat := 120

def PHASE_240_DEGREES : Nat := 240

/-! ## Machine conversions -/

/-- Truncation toward zero, the value of a C conversion from `float` to an integer type. -/
def truncZ {α : Type} [LinearOrderedField α] [FloorRing α] (x : α) : Int :=
  if 0 ≤ x then ⌊x⌋ else ⌈x⌉

/-- The cast `(uint16_t)x` of a `float`: truncation toward zero, kept to 16 bits. -/
def castU16 {α : Type} [LinearOrderedField α] [FloorRing α] (x : α) : Nat :=
  (truncZ x % 65536).toNat

/-- The truncated value of `x` is representable in `uint16_t`: the cast does not overflow. -/
def fitsU16 {α : Type} [LinearOrderedField α] [FloorRing α] (x : α) : Prop :=
  0 ≤ truncZ x ∧ truncZ x < 65536

/-! ## PWM driver interface (`pwm_control.h`) -/

/-- A call made to the PWM driver. -/
inductive PwmCall where
  | SetCarrierFreq (freqHz : Nat)
  | Enable
  | Disable
  | SetOutputs (phaseU phaseV phaseW : Nat)
  deriving DecidableEq, Repr

/-! ## Module state -/

/-- The private variables of `freq_control.c`. -/
structure State (α : Type) where
  targetFrequency : α
  currentAngle : α
  angleIncrement : α
  isRunning : Nat
  sineTable : List Nat
  voltageBoost : Nat

/-- The values of the static initializers: the state at power-on, before `FreqControl_Init`. -/
def powerOn (α : Type) [LinearOrderedField α] : State α :=
  { targetFrequency := 10.0
    currentAngle := 0.0
    angleIncrement := 0.0
    isRunning := 0
    sineTable := List.replicate SINE_TABLE_SIZE 0
    voltageBoost := 0 }

section Code

variable {α : Type} [LinearOrderedField α] [FloorRing α]

/-! ## Private functions -/

/-- `UpdateAngleIncrement`: `angleIncrement = TWO_PI * targetFrequency * 0.01f`. -/
def UpdateAngleIncrement (s : State α) : State α :=
  { s with angleIncrement := TWO_PI α * s.targetFrequency * 0.01 }

/-- The value stored in `sineTable[i]` by the body of the loop of `GenerateSineTable`. -/
def sineTableEntry (sinf : α → α) (i : Nat) : Nat :=
  let angle : α := (i : α) * (TWO_PI α / (SINE_TABLE_SIZE : α))
  let sinValue : α := sinf angle
  let sinValue : α := (sinValue + 1.0) / 2.0
  castU16 (sinValue * (PWM_MAX_VALUE : α))

/-- `GenerateSineTable`: fills `sineTable[i]` for `i = 0 .. SINE_TABLE_SIZE - 1`. -/
def GenerateSineTable (sinf : α → α) (s : State α) : State α :=
  { s with sineTable := (List.range SINE_TABLE_SIZE).map (sineTableEntry sinf) }

/-- The table index of `GetSineValue`: `(uint16_t)((angle * 180.0f / PI)) % SINE_TABLE_SIZE`. -/
def tableIndex (angle : α) : Nat :=
  castU16 (angle * 180.0 / PI α) % SINE_TABLE_SIZE

/-- `GetSineValue`: table lookup followed by the low-frequency voltage boost. -/
def GetSineValue (s : State α) (angle : α) : Nat :=
  let index : Nat := tableIndex angle
  let sineVal : Nat := s.sineTable.getD index 0
  if s.targetFrequency < 10.0 ∧ s.voltageBoost > 0 then
    let voltageRatio : α := s.targetFrequency / 10.0
    let boostFactor : α := 1.0 + ((s.voltageBoost : α) / 100.0) * (1.0 - voltageRatio)
    let sineVal : Nat := castU16 ((sineVal : α) * boostFactor)
    if sineVal > PWM_MAX_VALUE then PWM_MAX_VALUE else sineVal
  else
    sineVal

/-- The phase advance of `FreqControl_Update`: add the increment, wrap once at `TWO_PI`. -/
def advanceAngle (currentAngle angleIncrement : α) : α :=
  let currentAngle := currentAngle + angleIncrement
  if currentAngle ≥ TWO_PI α then currentAngle - TWO_PI α else currentAngle

/-- The three phase angles of `FreqControl_Update`, each offset wrapped once at `TWO_PI`. -/
def phaseAngles (currentAngle : α) : α × α × α :=
  let angleU := currentAngle
  let angleV := currentAngle + (PHASE_120_DEGREES : α) * (PI α / 180.0)
  let angleW := currentAngle + (PHASE_240_DEGREES : α) * (PI α / 180.0)
  let angleV := if angleV ≥ TWO_PI α then angleV - TWO_PI α else angleV
  let angleW := if angleW ≥ TWO_PI α then angleW - TWO_PI α else angleW
  (angleU, angleV, angleW)

/-! ## Public functions -/

/-- `FreqControl_Init`. -/
def FreqControl_Init (sinf : α → α) (s : State α) : State α × List PwmCall :=
  let s := GenerateSineTable sinf s
  let s := UpdateAngleIncrement s
  ({ s with currentAngle := 0.0, isRunning := 0, voltageBoost := 10 },
    [PwmCall.SetCarrierFreq PWM_CARRIER_FREQ])

/-- `FreqControl_SetFrequency`: return code, new state, driver calls. -/
def FreqControl_SetFrequency (s : State α) (freqHz : α) : Nat × State α × List PwmCall :=
  if freqHz < FREQ_MIN α ∨ freqHz > FREQ_MAX α then
    (1, s, [])
  else
    (0, UpdateAngleIncrement { s with targetFrequency := freqHz }, [])

/-- `FreqControl_GetFrequency`. -/
def FreqControl_GetFrequency (s : State α) : α :=
  s.targetFrequency

/-- `FreqControl_Start`: return code, new state, driver calls. -/
def FreqControl_Start (s : State α) : Nat × State α × List PwmCall :=
  if s.isRunning = 0 then
    (0, { s with isRunning := 1 }, [PwmCall.Enable])
  else
    (0, s, [])

/-- `FreqControl_Stop`: return code, new state, driver calls. -/
def FreqControl_Stop (s : State α) : Nat × State α × List PwmCall :=
  if s.isRunning ≠ 0 then
    (0, { s with isRunning := 0 }, [PwmCall.Disable])
  else
    (0, s, [])

/-- `FreqControl_IsRunning`. -/
def FreqControl_IsRunning (s : State α) : Nat :=
  s.isRunning

/-- `FreqControl_Update`: new state and driver calls. -/
def FreqControl_Update (s : State α) : State α × List PwmCall :=
  if s.isRunning ≠ 0 then
    let s := { s with currentAngle := advanceAngle s.currentAngle s.angleIncrement }
    let angles := phaseAngles s.currentAngle
    let phaseU := GetSineValue s angles.1
    let phaseV := GetSineValue s angles.2.1
    let phaseW := GetSineValue s angles.2.2
    (s, [PwmCall.SetOutputs phaseU phaseV phaseW])
  else
    (s, [])

/-! ## Call sequences -/

/-- A call of one of the public functions that change the module state. -/
inductive Op (α : Type) where
  | Init
  | SetFrequency (freqHz : α)
  | Start
  | Stop
  | Update

/-- The effect of one public call: new state and driver calls. -/
def applyOp (sinf : α → α) (s : State α) : Op α → State α × List PwmCall
  | Op.Init => FreqControl_Init sinf s
  | Op.SetFrequency freqHz => (FreqControl_SetFrequency s freqHz).2
  | Op.Start => (FreqControl_Start s).2
  | Op.Stop => (FreqControl_Stop s).2
  | Op.Update => FreqControl_Update s

/-- The state after the calls `ops`, made in order from the state `s`. -/
def runFrom (sinf : α → α) (s : State α) (ops : List (Op α)) : State α :=
  ops.foldl (fun st op => (applyOp sinf st op).1) s

/-- The state reached from power-on by `FreqControl_Init` followed by the calls `ops`. -/
def runOps (sinf : α → α) (ops : List (Op α)) : State α :=
  runFrom sinf (FreqControl_Init sinf (powerOn α)).1 ops

/-- The state after `k` consecutive calls of `FreqControl_Update`. -/
def updateN : Nat → State α → State α
  | 0, s => s
  | k + 1, s => updateN k (FreqControl_Update s).1

/-- The real remainder of `x` modulo `m`, in `[0, m)` for positive `m`. -/
def realMod (x m : α) : α :=
  x - m * (⌊x / m⌋ : α)

/-- The table value in the words of the specification,
`round(((sin(2π·i/360)+1)/2) · DUTY_MAX)`, for a given value `pi` of π. -/
noncomputable def spec_sineTableEntry (pi : ℝ) (i : Nat) : Int :=
  round (((Real.sin (2 * pi * (i : ℝ) / 360) + 1) / 2) * 1000)

/-- Every `SetOutputs` call of a list of driver calls carries duties in `[0, PWM_MAX_VALUE]`. -/
def outputsInRange (calls : List PwmCall) : Prop :=
  ∀ c ∈ calls, match c with
    | PwmCall.SetOutputs phaseU phaseV phaseW =>
      phaseU ≤ PWM_MAX_VALUE ∧ phaseV ≤ PWM_MAX_VALUE ∧ phaseW ≤ PWM_MAX_VALUE
    | _ => True

/-- Both `uint16_t` conversions of `GetSineValue s angle` (the index, and the boosted duty
when the boost branch is taken) are made on representable values. -/
def GetSineValue_fits (s : State α) (angle : α) : Prop :=
  fitsU16 (angle * 180.0 / PI α) ∧
  (s.targetFrequency < 10.0 ∧ s.voltageBoost > 0 →
    fitsU16 (((s.sineTable.getD (tableIndex angle) 0 : ℕ) : α)
      * (1.0 + ((s.voltageBoost : α) / 100.0) * (1.0 - s.targetFrequency / 10.0))))

/-- A C `float`: NaN or a number. -/
inductive CFloat (α : Type) where
  | nan
  | num (x : α)

/-- Addition of C floats. -/
def CFloat.add : CFloat α → CFloat α → CFloat α
  | CFloat.num x, CFloat.num y => CFloat.num (x + y)
  | _, _ => CFloat.nan

/-- Subtraction of C floats. -/
def CFloat.sub : CFloat α → CFloat α → CFloat α
  | CFloat.num x, CFloat.num y => CFloat.num (x - y)
  | _, _ => CFloat.nan

/-- Multiplication of C floats. -/
def CFloat.mul : CFloat α → CFloat α → CFloat α
  | CFloat.num x, CFloat.num y => CFloat.num (x * y)
  | _, _ => CFloat.nan

/-- Division of C floats (the divisors of the module are nonzero constants). -/
def CFloat.div : CFloat α → CFloat α → CFloat α
  | CFloat.num x, CFloat.num y => CFloat.num (x / y)
  | _, _ => CFloat.nan

/-- The comparison `a < b` of C floats: false when either is NaN. -/
def CFloat.lt : CFloat α → CFloat α → Bool
  | CFloat.num x, CFloat.num y => decide (x < y)
  | _, _ => false

/-- The comparison `a > b` of C floats: false when either is NaN. -/
def CFloat.gt : CFloat α → CFloat α → Bool
  | CFloat.num x, CFloat.num y => decide (x > y)
  | _, _ => false

/-- The comparison `a >= b` of C floats: false when either is NaN. -/
def CFloat.ge : CFloat α → CFloat α → Bool
  | CFloat.num x, CFloat.num y => decide (x ≥ y)
  | _, _ => false

/-- The cast `(uint16_t)x` of a C float: undefined for NaN and for a value whose truncation
is not representable. -/
def castU16_nan : CFloat α → Option Nat
  | CFloat.nan => none
  | CFloat.num x => if 0 ≤ truncZ x ∧ truncZ x < 65536 then some (castU16 x) else none

/-- The private variables of `freq_control.c`, the floats possibly NaN. -/
structure CState (α : Type) where
  targetFrequency : CFloat α
  currentAngle : CFloat α
  angleIncrement : CFloat α
  isRunning : Nat
  sineTable : List Nat
  voltageBoost : Nat

/-- The values of the static initializers. -/
def powerOn_nan (α : Type) [LinearOrderedField α] : CState α :=
  { targetFrequency := CFloat.num 10.0
    currentAngle := CFloat.num 0.0
    angleIncrement := CFloat.num 0.0
    isRunning := 0
    sineTable := List.replicate SINE_TABLE_SIZE 0
    voltageBoost := 0 }

/-- `UpdateAngleIncrement` on C floats. -/
def UpdateAngleIncrement_nan (s : CState α) : CState α :=
  { s with angleIncrement :=
      ((CFloat.num (TWO_PI α)).mul s.targetFrequency).mul (CFloat.num 0.01) }

/-- `FreqControl_Init` on C floats. -/
def FreqControl_Init_nan (sinf : α → α) (s : CState α) : CState α × List PwmCall :=
  let s := { s with sineTable := (List.range SINE_TABLE_SIZE).map (sineTableEntry sinf) }
  let s := UpdateAngleIncrement_nan s
  ({ s with currentAngle := CFloat.num 0.0, isRunning := 0, voltageBoost := 10 },
    [PwmCall.SetCarrierFreq PWM_CARRIER_FREQ])

/-- `FreqControl_SetFrequency` on C floats: return code, new state, driver calls. -/
def FreqControl_SetFrequency_nan (s : CState α) (freqHz : CFloat α) :
    Nat × CState α × List PwmCall :=
  if freqHz.lt (CFloat.num (FREQ_MIN α)) || freqHz.gt (CFloat.num (FREQ_MAX α)) then
    (1, s, [])
  else
    (0, UpdateAngleIncrement_nan { s with targetFrequency := freqHz }, [])

/-- `FreqControl_Start` on the state with C floats. -/
def FreqControl_Start_nan (s : CState α) : Nat × CState α × List PwmCall :=
  if s.isRunning = 0 then
    (0, { s with isRunning := 1 }, [PwmCall.Enable])
  else
    (0, s, [])

/-- `GetSineValue` on C floats: `none` when one of its conversions is undefined. -/
def GetSineValue_nan (s : CState α) (angle : CFloat α) : Option Nat :=
  match castU16_nan ((angle.mul (CFloat.num 180.0)).div (CFloat.num (PI α))) with
  | none => none
  | some c =>
    let index : Nat := c % SINE_TABLE_SIZE
    let sineVal : Nat := s.sineTable.getD index 0
    if s.targetFrequency.lt (CFloat.num 10.0) && decide (s.voltageBoost > 0) then
      let voltageRatio := s.targetFrequency.div (CFloat.num 10.0)
      let boostFactor := (CFloat.num 1.0).add
        (((CFloat.num (s.voltageBoost : α)).div (CFloat.num 100.0)).mul
          ((CFloat.num 1.0).sub voltageRatio))
      match castU16_nan ((CFloat.num (sineVal : α)).mul boostFactor) with
      | none => none
      | some v => some (if v > PWM_MAX_VALUE then PWM_MAX_VALUE else v)
    else
      some sineVal

/-- `FreqControl_Update` on C floats: the new state, and the driver calls or `none` when a
conversion of one of the three `GetSineValue` calls is undefined. -/
def FreqControl_Update_nan (s : CState α) : CState α × Option (List PwmCall) :=
  if s.isRunning ≠ 0 then
    let currentAngle := s.currentAngle.add s.angleIncrement
    let currentAngle :=
      if currentAngle.ge (CFloat.num (TWO_PI α)) then currentAngle.sub (CFloat.num (TWO_PI α))
      else currentAngle
    let s := { s with currentAngle := currentAngle }
    let angleU := currentAngle
    let angleV := currentAngle.add (CFloat.num ((PHASE_120_DEGREES : α) * (PI α / 180.0)))
    let angleW := currentAngle.add (CFloat.num ((PHASE_240_DEGREES : α) * (PI α / 180.0)))
    let angleV :=
      if angleV.ge (CFloat.num (TWO_PI α)) then angleV.sub (CFloat.num (TWO_PI α)) else angleV
    let angleW :=
      if angleW.ge (CFloat.num (TWO_PI α)) then angleW.sub (CFloat.num (TWO_PI α)) else angleW
    match GetSineValue_nan s angleU, GetSineValue_nan s angleV, GetSineValue_nan s angleW with
    | some phaseU, some phaseV, some phaseW =>
      (s, some [PwmCall.SetOutputs phaseU phaseV phaseW])
    | _, _, _ => (s, none)
  else
    (s, some [])

/-- The state after `FreqControl_Init()`, `FreqControl_SetFrequency(NAN)` and
`FreqControl_Start()` from power-on. -/
def nanStarted (sinf : α → α) : CState α :=
  (FreqControl_Start_nan
    (FreqControl_SetFrequency_nan (FreqControl_Init_nan sinf (powerOn_nan α)).1
      CFloat.nan).2.1).2.1

/-- The properties shared by all states reached after `FreqControl_Init`. -/
structure Inv (sinf : α → α) (s : State α) : Prop where
  freq_lo : FREQ_MIN α ≤ s.targetFrequency
  freq_hi : s.targetFrequency ≤ FREQ_MAX α
  incr : s.angleIncrement = TWO_PI α * s.targetFrequency * 0.01
  angle_lo : 0 ≤ s.currentAngle
  angle_hi : s.currentAngle < TWO_PI α
  boost : s.voltageBoost = 10
  table : s.sineTable = (List.range SINE_TABLE_SIZE).map (sineTableEntry sinf)

end Code

section Contracts

/-! ## Frequency setting -/

/-- C1: for every state and every `hz` with `0.1 ≤ hz ≤ 50.0`, `FreqControl_SetFrequency`
returns 0, afterwards `FreqControl_GetFrequency` returns `hz` and the angle increment is
`TWO_PI * hz * 0.01`; the phase angle, the running flag, the boost percent (and the sine
table) are unchanged and no PWM driver call is made. -/
theorem setFrequency_accepts {α : Type} [LinearOrderedField α] (s : State α) (hz : α) (hlo : 0.1 ≤ hz) (hhi : hz ≤ 50.0) :
    (FreqControl_SetFrequency s hz).1 = 0 ∧
    FreqControl_GetFrequency (FreqControl_SetFrequency s hz).2.1 = hz ∧
    (FreqControl_SetFrequency s hz).2.1.angleIncrement = TWO_PI α * hz * 0.01 ∧
    (FreqControl_SetFrequency s hz).2.1.currentAngle = s.currentAngle ∧
    (FreqControl_SetFrequency s hz).2.1.isRunning = s.isRunning ∧
    (FreqControl_SetFrequency s hz).2.1.voltageBoost = s.voltageBoost ∧
    (FreqControl_SetFrequency s hz).2.1.sineTable = s.sineTable ∧
    (FreqControl_SetFrequency s hz).2.2 = [] := by
  have hguard : ¬ (hz < FREQ_MIN α ∨ hz > FREQ_MAX α) := by
    unfold FREQ_MIN FREQ_MAX
    rintro (h | h)
    · exact absurd hlo (not_le.mpr h)
    · exact absurd hhi (not_le.mpr h)
  simp [FreqControl_SetFrequency, hguard, UpdateAngleIncrement, FreqControl_GetFrequency]

/-- Witness of C1 at the power-on state and 25 Hz. -/
theorem setFrequency_accepts_witness :
    (0.1 : ℚ) ≤ 25 ∧ (25 : ℚ) ≤ 50.0 ∧
    (FreqControl_SetFrequency (powerOn ℚ) 25).1 = 0 ∧
    FreqControl_GetFrequency (FreqControl_SetFrequency (powerOn ℚ) 25).2.1 = 25 ∧
    (FreqControl_SetFrequency (powerOn ℚ) 25).2.1.angleIncrement = TWO_PI ℚ * 25 * 0.01 ∧
    (FreqControl_SetFrequency (powerOn ℚ) 25).2.1.currentAngle = (powerOn ℚ).currentAngle ∧
    (FreqControl_SetFrequency (powerOn ℚ) 25).2.1.isRunning = (powerOn ℚ).isRunning ∧
    (FreqControl_SetFrequency (powerOn ℚ) 25).2.1.voltageBoost = (powerOn ℚ).voltageBoost ∧
    (FreqControl_SetFrequency (powerOn ℚ) 25).2.1.sineTable = (powerOn ℚ).sineTable ∧
    (FreqControl_SetFrequency (powerOn ℚ) 25).2.2 = [] :=
  ⟨by norm_num, by norm_num,
    setFrequency_accepts (powerOn ℚ) 25 (by norm_num) (by norm_num)⟩

/-- C2: `FreqControl_SetFrequency` returns 1 exactly when `hz < 0.1` or `hz > 50.0`; whenever
it returns 1 the whole state is the state before the call (and no driver call is made); for
`hz` equal to `0.0`, `50.1` or `-5.0` the call fails and `FreqControl_GetFrequency` keeps its
prior value. -/
theorem setFrequency_rejects {α : Type} [LinearOrderedField α] (s : State α) (hz : α) :
    ((FreqControl_SetFrequency s hz).1 = 1 ↔ (hz < 0.1 ∨ hz > 50.0)) ∧
    ((FreqControl_SetFrequency s hz).1 = 1 →
      (FreqControl_SetFrequency s hz).2.1 = s ∧ (FreqControl_SetFrequency s hz).2.2 = []) ∧
    ((hz = 0.0 ∨ hz = 50.1 ∨ hz = -5.0) →
      (FreqControl_SetFrequency s hz).1 = 1 ∧
      FreqControl_GetFrequency (FreqControl_SetFrequency s hz).2.1
        = FreqControl_GetFrequency s) := by
  have key : (FreqControl_SetFrequency s hz).1 = 1 ↔ (hz < 0.1 ∨ hz > 50.0) := by
    unfold FreqControl_SetFrequency FREQ_MIN FREQ_MAX
    split_ifs with h
    · simp [h]
    · simp only [zero_ne_one, false_iff]
      exact h
  have same : (FreqControl_SetFrequency s hz).1 = 1 →
      (FreqControl_SetFrequency s hz).2.1 = s ∧ (FreqControl_SetFrequency s hz).2.2 = [] := by
    unfold FreqControl_SetFrequency
    split_ifs with h
    · intro _
      exact ⟨rfl, rfl⟩
    · intro h1
      exact absurd h1 (by simp)
  refine ⟨key, same, ?_⟩
  intro hcases
  have hbad : hz < 0.1 ∨ hz > 50.0 := by
    rcases hcases with h | h | h
    · left; rw [h]; norm_num
    · right; rw [h]; norm_num
    · left; rw [h]; norm_num
  have hret := key.mpr hbad
  refine ⟨hret, ?_⟩
  rw [(same hret).1]

/-- Witness of C2: `50.1` Hz is rejected at the power-on state, which is left as it was. -/
theorem setFrequency_rejects_witness :
    (FreqControl_SetFrequency (powerOn ℚ) 50.1).1 = 1 ∧
    (FreqControl_SetFrequency (powerOn ℚ) 50.1).2.1 = powerOn ℚ ∧
    FreqControl_GetFrequency (FreqControl_SetFrequency (powerOn ℚ) 50.1).2.1 = 10 := by
  have h := setFrequency_rejects (powerOn ℚ) 50.1
  have hret := (h.2.2 (Or.inr (Or.inl rfl))).1
  refine ⟨hret, (h.2.1 hret).1, ?_⟩
  rw [(h.2.1 hret).1]
  norm_num [FreqControl_GetFrequency, powerOn]

/-! ## Tick while stopped, start and stop -/

/-- C3: for every state whose running flag is 0 (Stopped), `FreqControl_Update` issues no
driver call (in particular no `PWMControl_SetOutputs`) and returns the state unchanged. -/
theorem update_stopped {α : Type} [LinearOrderedField α] [FloorRing α] (s : State α) (hstop : s.isRunning = 0) :
    FreqControl_Update s = (s, []) := by
  simp [FreqControl_Update, hstop]

/-- Witness of C3 at the power-on state. -/
theorem update_stopped_witness :
    (powerOn ℚ).isRunning = 0 ∧ FreqControl_Update (powerOn ℚ) = (powerOn ℚ, []) :=
  ⟨rfl, update_stopped (powerOn ℚ) rfl⟩

/-- C4: `FreqControl_Start` and `FreqControl_Stop` always return 0. Start from Stopped issues
exactly one `Enable` and sets the running flag; from Running it issues nothing and changes
nothing; so two Starts in a row from Stopped issue exactly one `Enable`. Stop from Running
issues exactly one `Disable` and clears the flag; from Stopped it issues nothing and changes
nothing. Neither changes the phase angle, the target frequency or the angle increment. -/
theorem start_stop_idempotent {α : Type} (s : State α) :
    (FreqControl_Start s).1 = 0 ∧ (FreqControl_Stop s).1 = 0 ∧
    (s.isRunning = 0 →
      (FreqControl_Start s).2.2 = [PwmCall.Enable] ∧
      (FreqControl_Start s).2.1 = { s with isRunning := 1 } ∧
      (FreqControl_Start s).2.2 ++ (FreqControl_Start (FreqControl_Start s).2.1).2.2
        = [PwmCall.Enable]) ∧
    (s.isRunning ≠ 0 → (FreqControl_Start s).2.2 = [] ∧ (FreqControl_Start s).2.1 = s) ∧
    (s.isRunning ≠ 0 →
      (FreqControl_Stop s).2.2 = [PwmCall.Disable] ∧
      (FreqControl_Stop s).2.1 = { s with isRunning := 0 }) ∧
    (s.isRunning = 0 → (FreqControl_Stop s).2.2 = [] ∧ (FreqControl_Stop s).2.1 = s) ∧
    ((FreqControl_Start s).2.1.currentAngle = s.currentAngle ∧
      (FreqControl_Start s).2.1.targetFrequency = s.targetFrequency ∧
      (FreqControl_Start s).2.1.angleIncrement = s.angleIncrement) ∧
    ((FreqControl_Stop s).2.1.currentAngle = s.currentAngle ∧
      (FreqControl_Stop s).2.1.targetFrequency = s.targetFrequency ∧
      (FreqControl_Stop s).2.1.angleIncrement = s.angleIncrement) := by
  refine ⟨?_, ?_, ?_, ?_, ?_, ?_, ?_, ?_⟩
  · unfold FreqControl_Start; split_ifs <;> rfl
  · unfold FreqControl_Stop; split_ifs <;> rfl
  · intro h; simp [FreqControl_Start, h]
  · intro h; simp [FreqControl_Start, h]
  · intro h; simp [FreqControl_Stop, h]
  · intro h; simp [FreqControl_Stop, h]
  · unfold FreqControl_Start; split_ifs <;> exact ⟨rfl, rfl, rfl⟩
  · unfold FreqControl_Stop; split_ifs <;> exact ⟨rfl, rfl, rfl⟩

/-- Witness of C4: two Starts from the power-on (Stopped) state issue one `Enable`, and a
Stop on the power-on state issues nothing. -/
theorem start_stop_idempotent_witness :
    (FreqControl_Start (powerOn ℚ)).2.2
        ++ (FreqControl_Start (FreqControl_Start (powerOn ℚ)).2.1).2.2 = [PwmCall.Enable] ∧
    (FreqControl_Stop (powerOn ℚ)).2.2 = [] ∧
    (FreqControl_Stop (FreqControl_Start (powerOn ℚ)).2.1).2.2 = [PwmCall.Disable] ∧
    (FreqControl_Start (FreqControl_Start (powerOn ℚ)).2.1).2.2 = [] := by
  have h0 : (powerOn ℚ).isRunning = 0 := rfl
  have h1 : (FreqControl_Start (powerOn ℚ)).2.1.isRunning ≠ 0 := by
    simp [FreqControl_Start, powerOn]
  exact ⟨((start_stop_idempotent (powerOn ℚ)).2.2.1 h0).2.2,
    ((start_stop_idempotent (powerOn ℚ)).2.2.2.2.2.1 h0).1,
    ((start_stop_idempotent (FreqControl_Start (powerOn ℚ)).2.1).2.2.2.2.1 h1).1,
    ((start_stop_idempotent (FreqControl_Start (powerOn ℚ)).2.1).2.2.2.1 h1).1⟩

end Contracts

section Basics

variable {α : Type} [LinearOrderedField α] [FloorRing α]

/-! ## Facts about the constants and the conversions -/

omit [FloorRing α] in
lemma PI_pos : 0 < PI α := by
  unfold PI; norm_num

omit [FloorRing α] in
lemma TWO_PI_pos : 0 < TWO_PI α := by
  unfold TWO_PI PI; norm_num

/-- On a nonnegative value the truncation is the floor. -/
lemma truncZ_of_nonneg {x : α} (hx : 0 ≤ x) : truncZ x = ⌊x⌋ := by
  simp [truncZ, hx]

/-- A value in `[0, 65536)` fits in `uint16_t`. -/
lemma fitsU16_of_range {x : α} (hx : 0 ≤ x) (hlt : x < 65536) : fitsU16 x := by
  unfold fitsU16
  rw [truncZ_of_nonneg hx]
  refine ⟨Int.floor_nonneg.mpr hx, ?_⟩
  rw [Int.floor_lt]
  exact_mod_cast hlt

/-- On a value in `[0, 65536)` the `uint16_t` cast is the floor, unreduced. -/
lemma castU16_of_range {x : α} (hx : 0 ≤ x) (hlt : x < 65536) :
    (castU16 x : ℤ) = ⌊x⌋ := by
  have hf := fitsU16_of_range hx hlt
  unfold fitsU16 at hf
  rw [truncZ_of_nonneg hx] at hf
  unfold castU16
  rw [truncZ_of_nonneg hx, Int.emod_eq_of_lt hf.1 hf.2, Int.toNat_of_nonneg hf.1]

/-- The cast of a value in `[0, b + 1)` with `b` below `2^16` is at most `b`. -/
lemma castU16_le {x : α} {b : ℕ} (hx : 0 ≤ x) (hlt : x < (b : α) + 1) (hb : b < 65536) :
    castU16 x ≤ b := by
  have hb1 : (b : α) + 1 ≤ 65536 := by exact_mod_cast hb
  have hc := castU16_of_range hx (lt_of_lt_of_le hlt hb1)
  have hfl : ⌊x⌋ < (b : ℤ) + 1 := by
    rw [Int.floor_lt]; push_cast; exact hlt
  omega

/-- The cast of `x` is `n` when `n ≤ x < n + 1` and `n` is below `2^16`. -/
lemma castU16_eq {x : α} {n : ℕ} (hlo : (n : α) ≤ x) (hhi : x < (n : α) + 1)
    (hn : n < 65536) : castU16 x = n := by
  have hx : 0 ≤ x := le_trans (Nat.cast_nonneg n) hlo
  have hn1 : (n : α) + 1 ≤ 65536 := by exact_mod_cast hn
  have hc := castU16_of_range hx (lt_of_lt_of_le hhi hn1)
  have hfl : ⌊x⌋ = (n : ℤ) := by
    rw [Int.floor_eq_iff]; push_cast; exact ⟨hlo, hhi⟩
  omega

omit [LinearOrderedField α] [FloorRing α] in
/-- Reading a table built by mapping over `0 .. n-1` inside its bounds. -/
lemma getD_map_range (f : ℕ → α) (n i : ℕ) (d : α) (h : i < n) :
    ((List.range n).map f).getD i d = f i := by
  rw [List.getD_eq_getElem _ _ (by simpa using h)]
  simp

/-- A remainder in `[0, m)` that differs from `y` by a multiple of `m` is `realMod y m`. -/
lemma realMod_eq_of {y m r : α} {n : ℤ} (hm : 0 < m) (h0 : 0 ≤ r) (h1 : r < m)
    (hr : r = y - m * (n : α)) : realMod y m = r := by
  have hfl : ⌊y / m⌋ = n := by
    rw [Int.floor_eq_iff]
    have hy : y = r + m * (n : α) := by rw [hr]; ring
    constructor
    · rw [le_div_iff₀ hm, hy]; nlinarith
    · rw [div_lt_iff₀ hm, hy]; nlinarith
  unfold realMod
  rw [hfl, hr]

end Basics

section Invariant

variable {α : Type} [LinearOrderedField α] [FloorRing α]

/-! ## The invariant of the reachable states -/

omit [FloorRing α] in
/-- One advance keeps the angle in `[0, TWO_PI)` when the increment is in `[0, PI]`. -/
lemma advanceAngle_range {a inc : α} (ha0 : 0 ≤ a) (ha1 : a < TWO_PI α)
    (hi0 : 0 ≤ inc) (hi1 : inc ≤ PI α) :
    0 ≤ advanceAngle a inc ∧ advanceAngle a inc < TWO_PI α := by
  have hpi : TWO_PI α = 2 * PI α := rfl
  unfold advanceAngle
  simp only [ge_iff_le]
  split_ifs with h
  · constructor <;> linarith
  · exact ⟨by linarith, lt_of_not_le h⟩

omit [FloorRing α] in
/-- The two phase offsets of `phaseAngles` are `TWO_PI/3` and `2 * TWO_PI/3`. -/
lemma phase_offsets :
    ((PHASE_120_DEGREES : ℕ) : α) * (PI α / 180.0) = TWO_PI α / 3 ∧
    ((PHASE_240_DEGREES : ℕ) : α) * (PI α / 180.0) = 2 * TWO_PI α / 3 := by
  have h2 : TWO_PI α = 2 * PI α := rfl
  constructor
  · rw [h2]; norm_num [PHASE_120_DEGREES]; ring
  · rw [h2]; norm_num [PHASE_240_DEGREES]; ring

omit [FloorRing α] in
/-- For a base angle in `[0, TWO_PI)` the three phase angles are in `[0, TWO_PI)`. -/
lemma phaseAngles_range {a : α} (h0 : 0 ≤ a) (h1 : a < TWO_PI α) :
    (0 ≤ (phaseAngles a).1 ∧ (phaseAngles a).1 < TWO_PI α) ∧
    (0 ≤ (phaseAngles a).2.1 ∧ (phaseAngles a).2.1 < TWO_PI α) ∧
    (0 ≤ (phaseAngles a).2.2 ∧ (phaseAngles a).2.2 < TWO_PI α) := by
  have hpos : (0 : α) < TWO_PI α := TWO_PI_pos
  simp only [phaseAngles, (phase_offsets (α := α)).1, (phase_offsets (α := α)).2, ge_iff_le]
  refine ⟨⟨h0, h1⟩, ?_, ?_⟩
  · split_ifs with h
    · constructor <;> linarith
    · exact ⟨by linarith, lt_of_not_le h⟩
  · split_ifs with h
    · constructor <;> linarith
    · exact ⟨by linarith, lt_of_not_le h⟩

omit [FloorRing α] in
/-- For a frequency in `[FREQ_MIN, FREQ_MAX]` the increment is in `(0, PI]`. -/
lemma increment_range {f : α} (hlo : FREQ_MIN α ≤ f) (hhi : f ≤ FREQ_MAX α) :
    0 < TWO_PI α * f * 0.01 ∧ TWO_PI α * f * 0.01 ≤ PI α := by
  unfold FREQ_MIN at hlo
  unfold FREQ_MAX at hhi
  have hpi : (0 : α) < PI α := PI_pos
  have hf : (0 : α) < f := lt_of_lt_of_le (by norm_num) hlo
  unfold TWO_PI
  constructor
  · positivity
  · have : 2 * PI α * f * 0.01 = PI α * (f / 50) := by ring
    rw [this]
    have h50 : f / 50 ≤ 1 := by
      rw [div_le_one (by norm_num)]
      calc f ≤ 50.0 := hhi
        _ = 50 := by norm_num
    nlinarith

lemma Inv_init (sinf : α → α) : Inv sinf (FreqControl_Init sinf (powerOn α)).1 where
  freq_lo := by
    simp only [FreqControl_Init, UpdateAngleIncrement, GenerateSineTable, powerOn, FREQ_MIN]
    norm_num
  freq_hi := by
    simp only [FreqControl_Init, UpdateAngleIncrement, GenerateSineTable, powerOn, FREQ_MAX]
    norm_num
  incr := rfl
  angle_lo := by
    simp only [FreqControl_Init]
    norm_num
  angle_hi := by
    simp only [FreqControl_Init]
    have := TWO_PI_pos (α := α)
    norm_num
    exact this
  boost := rfl
  table := rfl

lemma Inv_applyOp (sinf : α → α) {s : State α} (h : Inv sinf s) (op : Op α) :
    Inv sinf (applyOp sinf s op).1 := by
  cases op with
  | Init =>
    refine ⟨h.freq_lo, h.freq_hi, rfl, ?_, ?_, rfl, rfl⟩
    · simp only [applyOp, FreqControl_Init]; norm_num
    · simp only [applyOp, FreqControl_Init]
      have := TWO_PI_pos (α := α)
      norm_num
      exact this
  | SetFrequency freqHz =>
    simp only [applyOp, FreqControl_SetFrequency]
    split_ifs with hg
    · exact h
    · rw [not_or, not_lt, not_lt] at hg
      exact ⟨hg.1, hg.2, rfl, h.angle_lo, h.angle_hi, h.boost, h.table⟩
  | Start =>
    simp only [applyOp, FreqControl_Start]
    split_ifs
    · exact ⟨h.freq_lo, h.freq_hi, h.incr, h.angle_lo, h.angle_hi, h.boost, h.table⟩
    · exact h
  | Stop =>
    simp only [applyOp, FreqControl_Stop]
    split_ifs
    · exact ⟨h.freq_lo, h.freq_hi, h.incr, h.angle_lo, h.angle_hi, h.boost, h.table⟩
    · exact h
  | Update =>
    simp only [applyOp, FreqControl_Update]
    split_ifs
    · have hinc := increment_range h.freq_lo h.freq_hi
      rw [← h.incr] at hinc
      have hadv := advanceAngle_range h.angle_lo h.angle_hi (le_of_lt hinc.1) hinc.2
      exact ⟨h.freq_lo, h.freq_hi, h.incr, hadv.1, hadv.2, h.boost, h.table⟩
    · exact h

lemma Inv_runFrom (sinf : α → α) (ops : List (Op α)) :
    ∀ s : State α, Inv sinf s → Inv sinf (runFrom sinf s ops) := by
  induction ops with
  | nil => intro s h; exact h
  | cons op rest ih =>
    intro s h
    exact ih _ (Inv_applyOp sinf h op)

lemma Inv_runOps (sinf : α → α) (ops : List (Op α)) : Inv sinf (runOps sinf ops) :=
  Inv_runFrom sinf ops _ (Inv_init sinf)

/-- In the exact model, where every `SetFrequency` argument is a number: in every state
reached from power-on by `FreqControl_Init` followed by any sequence of Init, SetFrequency,
Start, Stop and Update calls, the phase angle satisfies `0 ≤ currentAngle < TWO_PI`, and the
angle increment is in `(0, PI]`. -/
lemma phase_angle_in_range {α : Type} [LinearOrderedField α] [FloorRing α]
    (sinf : α → α) (ops : List (Op α)) :
    0 ≤ (runOps sinf ops).currentAngle ∧ (runOps sinf ops).currentAngle < TWO_PI α ∧
    0 < (runOps sinf ops).angleIncrement ∧ (runOps sinf ops).angleIncrement ≤ PI α := by
  have h := Inv_runOps sinf ops
  have hinc := increment_range h.freq_lo h.freq_hi
  rw [← h.incr] at hinc
  exact ⟨h.angle_lo, h.angle_hi, hinc.1, hinc.2⟩

end Invariant

section Phases

variable {α : Type} [LinearOrderedField α] [FloorRing α]

/-! ## The three phase angles and the phase accumulation -/

/-- C10: for every base angle `a` the phase angles of `FreqControl_Update` are `angleU = a`,
`angleV = a + TWO_PI/3 + n * TWO_PI` and `angleW = a + 2 * TWO_PI/3 + m * TWO_PI` for integers
`n`, `m` (congruence modulo `TWO_PI`); and when `0 ≤ a < TWO_PI` all three angles lie in
`[0, TWO_PI)`. -/
theorem phaseAngles_separation {α : Type} [LinearOrderedField α] (a : α) :
    (phaseAngles a).1 = a ∧
    (∃ n : ℤ, (phaseAngles a).2.1 = a + TWO_PI α / 3 + (n : α) * TWO_PI α) ∧
    (∃ m : ℤ, (phaseAngles a).2.2 = a + 2 * TWO_PI α / 3 + (m : α) * TWO_PI α) ∧
    (0 ≤ a → a < TWO_PI α →
      (0 ≤ (phaseAngles a).1 ∧ (phaseAngles a).1 < TWO_PI α) ∧
      (0 ≤ (phaseAngles a).2.1 ∧ (phaseAngles a).2.1 < TWO_PI α) ∧
      (0 ≤ (phaseAngles a).2.2 ∧ (phaseAngles a).2.2 < TWO_PI α)) := by
  refine ⟨rfl, ?_, ?_, fun h0 h1 => phaseAngles_range h0 h1⟩
  · simp only [phaseAngles, (phase_offsets (α := α)).1, ge_iff_le]
    split_ifs with h
    · exact ⟨-1, by push_cast; ring⟩
    · exact ⟨0, by push_cast; ring⟩
  · simp only [phaseAngles, (phase_offsets (α := α)).2, ge_iff_le]
    split_ifs with h
    · exact ⟨-1, by push_cast; ring⟩
    · exact ⟨0, by push_cast; ring⟩

/-- Witness of C10 at the base angle 5, where both offsets wrap. -/
theorem phaseAngles_separation_witness :
    (0 : ℚ) ≤ 5 ∧ (5 : ℚ) < TWO_PI ℚ ∧
    (0 ≤ (phaseAngles (5 : ℚ)).1 ∧ (phaseAngles (5 : ℚ)).1 < TWO_PI ℚ) ∧
    (0 ≤ (phaseAngles (5 : ℚ)).2.1 ∧ (phaseAngles (5 : ℚ)).2.1 < TWO_PI ℚ) ∧
    (0 ≤ (phaseAngles (5 : ℚ)).2.2 ∧ (phaseAngles (5 : ℚ)).2.2 < TWO_PI ℚ) :=
  ⟨by norm_num, by norm_num [TWO_PI, PI],
    (phaseAngles_separation (5 : ℚ)).2.2.2 (by norm_num) (by norm_num [TWO_PI, PI])⟩

/-- While Running, `k` updates keep the flag and the increment, and move the angle to a
value of `[0, TWO_PI)` that differs from `angle + k * increment` by a multiple of `TWO_PI`. -/
lemma updateN_angle (k : ℕ) :
    ∀ s : State α, s.isRunning ≠ 0 → 0 ≤ s.currentAngle → s.currentAngle < TWO_PI α →
      0 ≤ s.angleIncrement → s.angleIncrement ≤ PI α →
      (updateN k s).isRunning = s.isRunning ∧
      (updateN k s).angleIncrement = s.angleIncrement ∧
      (updateN k s).targetFrequency = s.targetFrequency ∧
      0 ≤ (updateN k s).currentAngle ∧ (updateN k s).currentAngle < TWO_PI α ∧
      ∃ n : ℤ, (updateN k s).currentAngle
        = s.currentAngle + (k : α) * s.angleIncrement - TWO_PI α * (n : α) := by
  induction k with
  | zero =>
    intro s _ h0 h1 _ _
    exact ⟨rfl, rfl, rfl, h0, h1, 0, by simp [updateN]⟩
  | succ k ih =>
    intro s hrun h0 h1 hi0 hi1
    have hadv := advanceAngle_range h0 h1 hi0 hi1
    have hstep : (FreqControl_Update s).1
        = { s with currentAngle := advanceAngle s.currentAngle s.angleIncrement } := by
      simp [FreqControl_Update, hrun]
    have hrec := ih (FreqControl_Update s).1 (by rw [hstep]; exact hrun)
      (by rw [hstep]; exact hadv.1) (by rw [hstep]; exact hadv.2)
      (by rw [hstep]; exact hi0) (by rw [hstep]; exact hi1)
    rw [hstep] at hrec
    obtain ⟨r1, r2, r3, r4, r5, n, hn⟩ := hrec
    have hunf : updateN (k + 1) s
        = updateN k { s with currentAngle := advanceAngle s.currentAngle s.angleIncrement } := by
      rw [← hstep]; rfl
    rw [hunf]
    refine ⟨r1, r2, r3, r4, r5, ?_⟩
    simp only at hn
    by_cases hw : s.currentAngle + s.angleIncrement ≥ TWO_PI α
    · refine ⟨n + 1, ?_⟩
      rw [hn]
      simp only [advanceAngle, hw, if_true]
      push_cast; ring
    · refine ⟨n, ?_⟩
      rw [hn]
      simp only [advanceAngle, hw, if_false]
      push_cast; ring

/-- The state after Init, SetFrequency(50), Start. -/
lemma runOps_set50_start (sinf : ℚ → ℚ) :
    runOps sinf [Op.SetFrequency 50, Op.Start]
      = { targetFrequency := 50
          currentAngle := 0
          angleIncrement := TWO_PI ℚ * 50 * 0.01
          isRunning := 1
          sineTable := (List.range SINE_TABLE_SIZE).map (sineTableEntry sinf)
          voltageBoost := 10 } := by
  have hguard : ¬ ((50 : ℚ) < FREQ_MIN ℚ ∨ (50 : ℚ) > FREQ_MAX ℚ) := by
    norm_num [FREQ_MIN, FREQ_MAX]
  simp [runOps, runFrom, applyOp, FreqControl_Init, FreqControl_SetFrequency,
    FreqControl_Start, UpdateAngleIncrement, GenerateSineTable, hguard]
  norm_num

/-- C9: for a Running state with phase 0, target frequency `f` in `[0.1, 50.0]` and the
increment `TWO_PI * f * 0.01` that belongs to it, the phase angle after `k` consecutive
`FreqControl_Update` calls is `(k * TWO_PI * f * 0.01) mod TWO_PI`, for every `k`, and the
target frequency is still `f`. -/
theorem phase_after_updates {α : Type} [LinearOrderedField α] [FloorRing α]
    (s : State α) (f : α) (k : ℕ) (hlo : 0.1 ≤ f) (hhi : f ≤ 50.0)
    (hrun : s.isRunning ≠ 0) (hphase : s.currentAngle = 0)
    (hfreq : s.targetFrequency = f) (hinc : s.angleIncrement = TWO_PI α * f * 0.01) :
    (updateN k s).currentAngle = realMod ((k : α) * TWO_PI α * f * 0.01) (TWO_PI α) ∧
    FreqControl_GetFrequency (updateN k s) = f := by
  have hrange := increment_range (α := α) (f := f) hlo hhi
  rw [← hinc] at hrange
  have h2pi := TWO_PI_pos (α := α)
  obtain ⟨_, _, hf, a0, a1, n, hn⟩ := updateN_angle k s hrun (by rw [hphase])
    (by rw [hphase]; exact h2pi) (le_of_lt hrange.1) hrange.2
  refine ⟨?_, by rw [FreqControl_GetFrequency, hf, hfreq]⟩
  symm
  apply realMod_eq_of h2pi a0 a1 (n := n)
  rw [hn, hphase, hinc]
  ring

/-- Witness of C9: Init, SetFrequency(50), Start, then three updates of `PI` each. -/
theorem phase_after_updates_witness :
    (updateN 3 (runOps (fun _ => (0 : ℚ)) [Op.SetFrequency 50, Op.Start])).currentAngle
      = realMod ((3 : ℕ) * TWO_PI ℚ * 50 * 0.01) (TWO_PI ℚ) ∧
    FreqControl_GetFrequency
      (updateN 3 (runOps (fun _ => (0 : ℚ)) [Op.SetFrequency 50, Op.Start])) = 50 :=
  phase_after_updates (runOps (fun _ => (0 : ℚ)) [Op.SetFrequency 50, Op.Start]) 50 3
    (by norm_num) (by norm_num)
    (by rw [runOps_set50_start]; decide)
    (by rw [runOps_set50_start])
    (by rw [runOps_set50_start])
    (by rw [runOps_set50_start])

end Phases

section Boost

variable {α : Type} [LinearOrderedField α] [FloorRing α]

/-! ## The voltage boost of `GetSineValue` -/

omit [FloorRing α] in
/-- In the boost branch the factor is at least 1. -/
lemma boostFactor_ge_one {f : α} (b : ℕ) (hf : f < 10.0) :
    (1 : α) ≤ 1.0 + ((b : α) / 100.0) * (1.0 - f / 10.0) := by
  have h1 : (0 : α) ≤ 1.0 - f / 10.0 := by
    have : f / 10.0 < 1 := by
      rw [div_lt_one (by norm_num)]; exact hf
    norm_num; linarith
  have h2 : (0 : α) ≤ (b : α) / 100.0 := by positivity
  have := mul_nonneg h2 h1
  norm_num at this ⊢
  linarith

omit [FloorRing α] in
/-- For a duty up to 1000, a nonnegative frequency and a boost up to 20 percent the boosted
product stays below 1201. -/
lemma boosted_lt {f : α} {d b : ℕ} (hd : d ≤ 1000) (h0 : 0 ≤ f) (hb : b ≤ 20) :
    (d : α) * (1.0 + ((b : α) / 100.0) * (1.0 - f / 10.0)) < 1201 := by
  have hd1 : (d : α) ≤ 1000 := by exact_mod_cast hd
  have hd0 : (0 : α) ≤ (d : α) := Nat.cast_nonneg d
  have hb1 : (b : α) ≤ 20 := by exact_mod_cast hb
  have hb0 : (0 : α) ≤ (b : α) := Nat.cast_nonneg b
  have hr : (1.0 : α) - f / 10.0 ≤ 1 := by
    have : (0 : α) ≤ f / 10.0 := by positivity
    norm_num; linarith
  have h1 : ((b : α) / 100.0) * (1.0 - f / 10.0) ≤ (b : α) / 100.0 := by
    have hbn : (0 : α) ≤ (b : α) / 100.0 := by positivity
    nlinarith
  have h2 : (b : α) / 100.0 ≤ 0.2 := by
    rw [div_le_iff₀ (by norm_num)]; norm_num; linarith
  have h3 : (1.0 : α) + ((b : α) / 100.0) * (1.0 - f / 10.0) ≤ 1.2 := by
    norm_num at h1 h2 ⊢; linarith
  calc (d : α) * (1.0 + ((b : α) / 100.0) * (1.0 - f / 10.0))
      ≤ (d : α) * 1.2 := mul_le_mul_of_nonneg_left h3 hd0
    _ ≤ 1000 * 1.2 := by nlinarith
    _ < 1201 := by norm_num

end Boost

section Table

variable {α : Type} [LinearOrderedField α] [FloorRing α]

/-! ## The sine table -/

omit [FloorRing α] in
/-- For a sine value in `[-1, 1]` the scaled value is in `[0, 1000]`. -/
lemma scaled_range {v : α} (h0 : -1 ≤ v) (h1 : v ≤ 1) :
    0 ≤ (v + 1.0) / 2.0 * ((PWM_MAX_VALUE : ℕ) : α) ∧
    (v + 1.0) / 2.0 * ((PWM_MAX_VALUE : ℕ) : α) ≤ 1000 := by
  have : (v + 1.0) / 2.0 * ((PWM_MAX_VALUE : ℕ) : α) = (v + 1) * 500 := by
    norm_num [PWM_MAX_VALUE]; ring
  rw [this]
  constructor <;> linarith

/-- With `sinf` bounded by 1 in absolute value the cast of `GenerateSineTable` does not
overflow, the entry is the floor of the scaled value, and it is at most 1000. -/
lemma sineTableEntry_bounded (sinf : α → α) (hs : ∀ x, -1 ≤ sinf x ∧ sinf x ≤ 1) (i : ℕ) :
    fitsU16 ((sinf ((i : α) * (TWO_PI α / ((SINE_TABLE_SIZE : ℕ) : α))) + 1.0) / 2.0
      * ((PWM_MAX_VALUE : ℕ) : α)) ∧
    (sineTableEntry sinf i : ℤ)
      = ⌊(sinf ((i : α) * (TWO_PI α / ((SINE_TABLE_SIZE : ℕ) : α))) + 1.0) / 2.0
          * ((PWM_MAX_VALUE : ℕ) : α)⌋ ∧
    sineTableEntry sinf i ≤ PWM_MAX_VALUE := by
  have hv := hs ((i : α) * (TWO_PI α / ((SINE_TABLE_SIZE : ℕ) : α)))
  have hr := scaled_range hv.1 hv.2
  have hlt : (sinf ((i : α) * (TWO_PI α / ((SINE_TABLE_SIZE : ℕ) : α))) + 1.0) / 2.0
      * ((PWM_MAX_VALUE : ℕ) : α) < 65536 := lt_of_le_of_lt hr.2 (by norm_num)
  refine ⟨fitsU16_of_range hr.1 hlt, castU16_of_range hr.1 hlt, ?_⟩
  exact castU16_le hr.1 (lt_of_le_of_lt hr.2 (by norm_num [PWM_MAX_VALUE]))
    (by norm_num [PWM_MAX_VALUE])

/-- Every entry read from the generated table is at most 1000, whatever the index. -/
lemma table_getD_le (sinf : α → α) (hs : ∀ x, -1 ≤ sinf x ∧ sinf x ≤ 1) (j : ℕ) :
    ((List.range SINE_TABLE_SIZE).map (sineTableEntry sinf)).getD j 0 ≤ PWM_MAX_VALUE := by
  by_cases hj : j < SINE_TABLE_SIZE
  · rw [getD_map_range _ _ _ _ hj]
    exact (sineTableEntry_bounded sinf hs j).2.2
  · rw [List.getD_eq_default _ _ (by simpa using hj)]
    exact Nat.zero_le _

end Table

section RealTable

/-! ## The sine table over the reals, with `sinf` the real sine -/

/-- The real sine is bounded by 1 in absolute value. -/
lemma sin_bounded : ∀ x : ℝ, -1 ≤ Real.sin x ∧ Real.sin x ≤ 1 :=
  fun x => ⟨Real.neg_one_le_sin x, Real.sin_le_one x⟩

/-- For an angle `x` between 0.0174 and 0.0175 rad (about one degree) the scaled sine value
lies strictly between 508.6 and 508.8. -/
lemma scaled_sin_one_degree {x : ℝ} (hlo : 0.0174 < x) (hhi : x < 0.0175) :
    508.6 < (Real.sin x + 1) / 2 * 1000 ∧ (Real.sin x + 1) / 2 * 1000 < 508.8 := by
  have hpos : 0 < x := lt_trans (by norm_num) hlo
  have hup := Real.sin_lt hpos
  have hdown := Real.sin_gt_sub_cube hpos (le_of_lt (lt_trans hhi (by norm_num)))
  have hcube : x ^ 3 < 0.0001 := by
    have h1 : x ^ 3 < 0.0175 ^ 3 := pow_lt_pow_left₀ hhi (le_of_lt hpos) (by norm_num)
    exact lt_trans h1 (by norm_num)
  constructor <;> linarith

/-- The code stores 508 at index 1. -/
lemma sineTableEntry_one : sineTableEntry Real.sin 1 = 508 := by
  have hx : (0.0174 : ℝ) < ((1 : ℕ) : ℝ) * (TWO_PI ℝ / ((SINE_TABLE_SIZE : ℕ) : ℝ)) ∧
      ((1 : ℕ) : ℝ) * (TWO_PI ℝ / ((SINE_TABLE_SIZE : ℕ) : ℝ)) < 0.0175 := by
    constructor <;> norm_num [TWO_PI, PI, SINE_TABLE_SIZE]
  have hs := scaled_sin_one_degree hx.1 hx.2
  unfold sineTableEntry
  apply castU16_eq
  · norm_num [PWM_MAX_VALUE] at hs ⊢; linarith [hs.1]
  · norm_num [PWM_MAX_VALUE] at hs ⊢; linarith [hs.2]
  · norm_num

/-- The formula of the specification gives 509 at index 1 for any `pi` close to π. -/
lemma spec_sineTableEntry_one {pi : ℝ} (hlo : 3.14 < pi) (hhi : pi < 3.15) :
    spec_sineTableEntry pi 1 = 509 := by
  have hx : (0.0174 : ℝ) < 2 * pi * ((1 : ℕ) : ℝ) / 360 ∧
      2 * pi * ((1 : ℕ) : ℝ) / 360 < 0.0175 := by
    constructor
    · rw [lt_div_iff₀ (by norm_num)]; norm_num; linarith
    · rw [div_lt_iff₀ (by norm_num)]; norm_num; linarith
  have hs := scaled_sin_one_degree hx.1 hx.2
  unfold spec_sineTableEntry
  rw [round_eq, Int.floor_eq_iff]
  constructor
  · norm_num at hs ⊢; linarith [hs.1]
  · norm_num at hs ⊢; linarith [hs.2]

/-- C7, as stated, fails: at index 1 the table built by `GenerateSineTable` holds 508, while
`round(((sin(2π·1/360)+1)/2) · 1000)` is 509, both for the exact π and for the constant `PI`
of the source. -/
theorem sineTable_rounding_counterexample :
    (GenerateSineTable Real.sin (powerOn ℝ)).sineTable.getD 1 0 = 508 ∧
    spec_sineTableEntry Real.pi 1 = 509 ∧
    spec_sineTableEntry (PI ℝ) 1 = 509 := by
  refine ⟨?_, ?_, ?_⟩
  · unfold GenerateSineTable
    simp only
    rw [getD_map_range _ _ _ _ (by norm_num [SINE_TABLE_SIZE])]
    exact sineTableEntry_one
  · exact spec_sineTableEntry_one Real.pi_gt_d2 Real.pi_lt_d2
  · exact spec_sineTableEntry_one (by norm_num [PI]) (by norm_num [PI])

end RealTable

section Duties

variable {α : Type} [LinearOrderedField α] [FloorRing α]

/-! ## The duty values sent to the PWM driver -/

/-- With the generated table, `GetSineValue` returns at most 1000 for every angle. -/
lemma GetSineValue_le (sinf : α → α) (hs : ∀ x, -1 ≤ sinf x ∧ sinf x ≤ 1) (s : State α)
    (htab : s.sineTable = (List.range SINE_TABLE_SIZE).map (sineTableEntry sinf))
    (angle : α) : GetSineValue s angle ≤ PWM_MAX_VALUE := by
  have hentry := table_getD_le sinf hs (tableIndex angle)
  rw [← htab] at hentry
  unfold GetSineValue
  simp only
  split_ifs with h1 h2
  · exact le_refl _
  · exact not_lt.mp h2
  · exact hentry

/-- In a state satisfying the invariant, the conversions of `GetSineValue` on an angle of
`[0, TWO_PI)` are made on representable values. -/
lemma GetSineValue_fits_of_Inv (sinf : α → α) (hs : ∀ x, -1 ≤ sinf x ∧ sinf x ≤ 1)
    {s : State α} (h : Inv sinf s) {angle : α} (h0 : 0 ≤ angle) (h1 : angle < TWO_PI α) :
    GetSineValue_fits s angle := by
  have hpi : (0 : α) < PI α := PI_pos
  constructor
  · apply fitsU16_of_range
    · have : (0 : α) ≤ angle * 180.0 := by norm_num; linarith
      exact div_nonneg this (le_of_lt hpi)
    · rw [div_lt_iff₀ hpi]
      have h2 : TWO_PI α = 2 * PI α := rfl
      norm_num
      linarith
  · rintro ⟨hf, _⟩
    have hentry := table_getD_le sinf hs (tableIndex angle)
    rw [← h.table] at hentry
    have hflo : (0 : α) ≤ s.targetFrequency := by
      have := h.freq_lo
      unfold FREQ_MIN at this
      exact le_trans (by norm_num) this
    have hlt := boosted_lt (α := α) (f := s.targetFrequency) (b := s.voltageBoost)
      (d := s.sineTable.getD (tableIndex angle) 0) hentry hflo (by rw [h.boost]; norm_num)
    have hge := boostFactor_ge_one (α := α) s.voltageBoost hf
    exact fitsU16_of_range (mul_nonneg (Nat.cast_nonneg _) (le_trans zero_le_one hge))
      (lt_trans hlt (by norm_num))

/-- In the exact model, where every `SetFrequency` argument is a number, and for `sinf` with
values in `[-1, 1]`: in every state reached from power-on by `FreqControl_Init` followed by
any sequence of Init, SetFrequency, Start, Stop and Update calls, every duty that
`FreqControl_Update` passes to `PWMControl_SetOutputs` is in `[0, 1000]`, and the `uint16_t`
conversions of the table generation and of the three `GetSineValue` calls are made on
representable values. -/
lemma duties_in_range {α : Type} [LinearOrderedField α] [FloorRing α]
    (sinf : α → α) (hs : ∀ x, -1 ≤ sinf x ∧ sinf x ≤ 1) (ops : List (Op α)) :
    outputsInRange (FreqControl_Update (runOps sinf ops)).2 ∧
    (∀ i : ℕ, fitsU16 ((sinf ((i : α) * (TWO_PI α / ((SINE_TABLE_SIZE : ℕ) : α))) + 1.0) / 2.0
      * ((PWM_MAX_VALUE : ℕ) : α))) ∧
    ((runOps sinf ops).isRunning ≠ 0 →
      GetSineValue_fits (FreqControl_Update (runOps sinf ops)).1
        (phaseAngles (FreqControl_Update (runOps sinf ops)).1.currentAngle).1 ∧
      GetSineValue_fits (FreqControl_Update (runOps sinf ops)).1
        (phaseAngles (FreqControl_Update (runOps sinf ops)).1.currentAngle).2.1 ∧
      GetSineValue_fits (FreqControl_Update (runOps sinf ops)).1
        (phaseAngles (FreqControl_Update (runOps sinf ops)).1.currentAngle).2.2) := by
  have h := Inv_runOps sinf ops
  have h' : Inv sinf (FreqControl_Update (runOps sinf ops)).1 :=
    Inv_applyOp sinf h Op.Update
  refine ⟨?_, fun i => (sineTableEntry_bounded sinf hs i).1, ?_⟩
  · intro c hc
    unfold FreqControl_Update at hc
    split_ifs at hc with hrun
    · simp only [List.mem_singleton] at hc
      subst hc
      exact ⟨GetSineValue_le sinf hs _ h.table _, GetSineValue_le sinf hs _ h.table _,
        GetSineValue_le sinf hs _ h.table _⟩
    · simp at hc
  · intro _
    have hang := (phaseAngles_range h'.angle_lo h'.angle_hi)
    exact ⟨GetSineValue_fits_of_Inv sinf hs h' hang.1.1 hang.1.2,
      GetSineValue_fits_of_Inv sinf hs h' hang.2.1.1 hang.2.1.2,
      GetSineValue_fits_of_Inv sinf hs h' hang.2.2.1 hang.2.2.2⟩

end Duties

section Defaults

/-! ## Initial values, the boost percent and the increment along call sequences -/

/-- C11: in every state reached from power-on by `FreqControl_Init` followed by any sequence
of Init, SetFrequency (accepted or rejected), Start, Stop and Update calls, the angle
increment equals `TWO_PI * targetFrequency * 0.01` for the frequency that
`FreqControl_GetFrequency` reports, also after one more `FreqControl_Update`. -/
theorem increment_never_stale {α : Type} [LinearOrderedField α] [FloorRing α]
    (sinf : α → α) (ops : List (Op α)) :
    (runOps sinf ops).angleIncrement
      = TWO_PI α * FreqControl_GetFrequency (runOps sinf ops) * 0.01 ∧
    (FreqControl_Update (runOps sinf ops)).1.angleIncrement
      = TWO_PI α * FreqControl_GetFrequency (FreqControl_Update (runOps sinf ops)).1 * 0.01 :=
  ⟨(Inv_runOps sinf ops).incr, (Inv_applyOp sinf (Inv_runOps sinf ops) Op.Update).incr⟩

/-- C13: `FreqControl_Init` on the power-on state yields running flag 0 (Stopped), phase
angle 0, boost percent 10, target frequency 10.0 Hz and angle increment
`TWO_PI * 10 * 0.01`; and after any further sequence of calls the boost percent is still 10. -/
theorem init_defaults {α : Type} [LinearOrderedField α] [FloorRing α]
    (sinf : α → α) (ops : List (Op α)) :
    FreqControl_IsRunning (FreqControl_Init sinf (powerOn α)).1 = 0 ∧
    (FreqControl_Init sinf (powerOn α)).1.currentAngle = 0 ∧
    (FreqControl_Init sinf (powerOn α)).1.voltageBoost = 10 ∧
    FreqControl_GetFrequency (FreqControl_Init sinf (powerOn α)).1 = 10.0 ∧
    (FreqControl_Init sinf (powerOn α)).1.angleIncrement = TWO_PI α * 10 * 0.01 ∧
    (runOps sinf ops).voltageBoost = 10 := by
  refine ⟨rfl, ?_, rfl, rfl, ?_, (Inv_runOps sinf ops).boost⟩
  · simp only [FreqControl_Init]; norm_num
  · simp only [FreqControl_Init, UpdateAngleIncrement, GenerateSineTable, powerOn]; norm_num

end Defaults


section Shape

/-! ## The shape of the sine table -/

/-- The angle of table index `i` is `i * PI / 180`. -/
lemma table_angle (i : ℕ) :
    (i : ℝ) * (TWO_PI ℝ / ((SINE_TABLE_SIZE : ℕ) : ℝ)) = (i : ℝ) * PI ℝ / 180 := by
  norm_num [TWO_PI, SINE_TABLE_SIZE]; ring

end Shape

section Tick

variable {α : Type} [LinearOrderedField α] [FloorRing α]

/-! ## One tick of `FreqControl_Update` while Running -/

end Tick

section NotANumber

variable {α : Type} [LinearOrderedField α] [FloorRing α]

/-! ## A NaN frequency passes the range check -/

omit [FloorRing α] in
/-- The range check of `FreqControl_SetFrequency` lets NaN through: the call returns 0 and
stores NaN as target frequency and as angle increment. -/
lemma setFrequency_nan_accepted (s : CState α) :
    FreqControl_SetFrequency_nan s CFloat.nan
      = (0, { s with targetFrequency := CFloat.nan, angleIncrement := CFloat.nan }, []) := by
  simp [FreqControl_SetFrequency_nan, UpdateAngleIncrement_nan, CFloat.lt, CFloat.gt,
    CFloat.mul]

/-- The state after Init, SetFrequency(NaN), Start: Running, phase 0, NaN frequency and
increment. -/
lemma nanStarted_eq (sinf : α → α) :
    nanStarted sinf
      = { targetFrequency := CFloat.nan
          currentAngle := CFloat.num 0.0
          angleIncrement := CFloat.nan
          isRunning := 1
          sineTable := (List.range SINE_TABLE_SIZE).map (sineTableEntry sinf)
          voltageBoost := 10 } := by
  simp [nanStarted, setFrequency_nan_accepted, FreqControl_Init_nan, FreqControl_Start_nan,
    UpdateAngleIncrement_nan]

/-- The update of the state after Init, SetFrequency(NaN), Start: the phase becomes NaN and
the conversion of the first `GetSineValue` call is undefined. -/
lemma update_nanStarted (sinf : α → α) :
    FreqControl_Update_nan (nanStarted sinf)
      = ({ nanStarted sinf with currentAngle := CFloat.nan }, none) := by
  rw [nanStarted_eq]
  simp [FreqControl_Update_nan, GetSineValue_nan, castU16_nan, CFloat.add, CFloat.ge,
    CFloat.mul, CFloat.div]

/-- C5 (defect of the code): after `FreqControl_Init()`, `FreqControl_SetFrequency(NAN)` is
accepted (returns 0) and after `FreqControl_Start()` the next `FreqControl_Update()` applies
the `uint16_t` conversion of `GetSineValue` to a NaN angle: the conversion is undefined and
no duty triple in `[0, 1000]` is determined. -/
theorem nan_frequency_undefined_conversion {α : Type} [LinearOrderedField α] [FloorRing α]
    (sinf : α → α) :
    (FreqControl_SetFrequency_nan (FreqControl_Init_nan sinf (powerOn_nan α)).1
      CFloat.nan).1 = 0 ∧
    (nanStarted sinf).isRunning ≠ 0 ∧
    GetSineValue_nan (FreqControl_Update_nan (nanStarted sinf)).1
      (FreqControl_Update_nan (nanStarted sinf)).1.currentAngle = none ∧
    (FreqControl_Update_nan (nanStarted sinf)).2 = none := by
  refine ⟨by rw [setFrequency_nan_accepted], by rw [nanStarted_eq]; simp, ?_,
    by rw [update_nanStarted]⟩
  rw [update_nanStarted]
  simp [GetSineValue_nan, castU16_nan, CFloat.mul, CFloat.div]

/-- C6 (defect of the code): after `FreqControl_Init()`, `FreqControl_SetFrequency(NAN)` is
accepted (returns 0), the angle increment is NaN, and after `FreqControl_Start()` one
`FreqControl_Update()` leaves the phase angle NaN, for which neither `0 <= currentAngle` nor
`currentAngle < TWO_PI` holds. -/
theorem nan_frequency_phase {α : Type} [LinearOrderedField α] [FloorRing α]
    (sinf : α → α) :
    (FreqControl_SetFrequency_nan (FreqControl_Init_nan sinf (powerOn_nan α)).1
      CFloat.nan).1 = 0 ∧
    (nanStarted sinf).angleIncrement = CFloat.nan ∧
    (FreqControl_Update_nan (nanStarted sinf)).1.currentAngle = CFloat.nan ∧
    CFloat.ge (FreqControl_Update_nan (nanStarted sinf)).1.currentAngle (CFloat.num 0)
      = false ∧
    CFloat.lt (FreqControl_Update_nan (nanStarted sinf)).1.currentAngle
      (CFloat.num (TWO_PI α)) = false := by
  refine ⟨by rw [setFrequency_nan_accepted], by rw [nanStarted_eq], by rw [update_nanStarted],
    by rw [update_nanStarted]; rfl, by rw [update_nanStarted]; rfl⟩

end NotANumber

section AccurateSine

/-! ## The sine table for a sine function accurate to `1/100000` -/

/-- Reading the generated table inside its bounds gives the entry of the loop body. -/
lemma generated_getD {α : Type} [LinearOrderedField α] [FloorRing α] (sinf : α → α)
    (s : State α) {i : ℕ} (hi : i < 360) :
    (GenerateSineTable sinf s).sineTable.getD i 0 = sineTableEntry sinf i := by
  unfold GenerateSineTable
  simp only
  exact getD_map_range _ _ _ _ (by simpa [SINE_TABLE_SIZE] using hi)

/-- C7, amended: for a sine function bounded by 1 and accurate to `1/100000` (the real sine,
or its single-precision evaluation), and for every index `i` in `0..359`, the table entry
built by `GenerateSineTable` is the truncation toward zero, not the rounding, of
`v = ((sin(2·PI·i/360)+1)/2)·1000` up to that evaluation error:
`v - 1 - 1/100 < table[i] < v + 1/100`, and `table[i] ≤ 1000`. -/
theorem sineTable_truncation (sinf : ℝ → ℝ) (hb : ∀ x, -1 ≤ sinf x ∧ sinf x ≤ 1)
    (hacc : ∀ x, |sinf x - Real.sin x| ≤ 1 / 100000) (s : State ℝ) (i : ℕ) (hi : i < 360) :
    ((Real.sin (2 * PI ℝ * (i : ℝ) / 360) + 1) / 2) * 1000 - 1 - 1 / 100
      < (((GenerateSineTable sinf s).sineTable.getD i 0 : ℕ) : ℝ) ∧
    (((GenerateSineTable sinf s).sineTable.getD i 0 : ℕ) : ℝ)
      < ((Real.sin (2 * PI ℝ * (i : ℝ) / 360) + 1) / 2) * 1000 + 1 / 100 ∧
    (GenerateSineTable sinf s).sineTable.getD i 0 ≤ 1000 := by
  have hbnd := sineTableEntry_bounded sinf hb i
  have harg : (i : ℝ) * (TWO_PI ℝ / ((SINE_TABLE_SIZE : ℕ) : ℝ)) = 2 * PI ℝ * (i : ℝ) / 360 := by
    rw [table_angle]; ring
  rw [harg] at hbnd
  have ha := abs_le.mp (hacc (2 * PI ℝ * (i : ℝ) / 360))
  have hfl := Int.floor_le ((sinf (2 * PI ℝ * (i : ℝ) / 360) + 1.0) / 2.0
    * ((PWM_MAX_VALUE : ℕ) : ℝ))
  have hfl2 := Int.lt_floor_add_one ((sinf (2 * PI ℝ * (i : ℝ) / 360) + 1.0) / 2.0
    * ((PWM_MAX_VALUE : ℕ) : ℝ))
  rw [← hbnd.2.1] at hfl hfl2
  rw [generated_getD sinf s hi]
  have hcast : (((sineTableEntry sinf i : ℕ) : ℤ) : ℝ) = ((sineTableEntry sinf i : ℕ) : ℝ) := by
    norm_cast
  rw [hcast] at hfl hfl2
  have hval : (sinf (2 * PI ℝ * (i : ℝ) / 360) + 1.0) / 2.0 * ((PWM_MAX_VALUE : ℕ) : ℝ)
      = (sinf (2 * PI ℝ * (i : ℝ) / 360) + 1) * 500 := by
    norm_num [PWM_MAX_VALUE]; ring
  rw [hval] at hfl hfl2
  refine ⟨by linarith [ha.1], by linarith [ha.2], hbnd.2.2⟩

/-- Witness of the amended C7 with the real sine at index 1 of the table built at
power-on. -/
theorem sineTable_truncation_witness :
    ((Real.sin (2 * PI ℝ * ((1 : ℕ) : ℝ) / 360) + 1) / 2) * 1000 - 1 - 1 / 100
      < (((GenerateSineTable Real.sin (powerOn ℝ)).sineTable.getD 1 0 : ℕ) : ℝ) ∧
    (((GenerateSineTable Real.sin (powerOn ℝ)).sineTable.getD 1 0 : ℕ) : ℝ)
      < ((Real.sin (2 * PI ℝ * ((1 : ℕ) : ℝ) / 360) + 1) / 2) * 1000 + 1 / 100 ∧
    (GenerateSineTable Real.sin (powerOn ℝ)).sineTable.getD 1 0 ≤ 1000 :=
  sineTable_truncation Real.sin sin_bounded (fun x => by simp) (powerOn ℝ) 1 (by norm_num)

end AccurateSine

section BoostTolerance

variable {α : Type} [LinearOrderedField α] [FloorRing α]

/-! ## The boost truncates: statement up to the single-precision evaluation error -/

end BoostTolerance

section BoostAtFiveHertz

/-! ## The boost on the state reached by Init, SetFrequency(5), Start -/

end BoostAtFiveHertz

section RunningTick

variable {α : Type} [LinearOrderedField α] [FloorRing α]

/-! ## One tick of `FreqControl_Update` in the states reached from power-on -/

end RunningTick

section TickAtLowFrequency

/-! ## The tick after Init, SetFrequency(0.375), Start -/

end TickAtLowFrequency

end FreqControl
